import Mathlib

/-!
Verification of the kaggle-datasets-extraction-tool repository.

The frontend JavaScript (`script.js` and the two unnamed variants of the
file-upload UI) is embedded directly from the source.  The FastAPI backend
(`backend/main.py`, `backend/modules/datasets.py`) is not part of the
source tree we were given, so the rate-limited Fetcher and the result
normalizer are modelled from the specification and the repository README;
those definitions say so in their doc comments.
-/

/- ===== JavaScript platform primitives used by the frontend ===== -/

/-- Whitespace characters stripped by JavaScript `String.prototype.trim`:
space, tab, line terminators, vertical tab, form feed, NBSP and BOM. -/
def isJsWhitespace (c : Char) : Bool :=
  c = ' ' || c = '\t' || c = '\n' || c = '\r' ||
  c = '\x0b' || c = '\x0c' || c = Char.ofNat 0xA0 || c = Char.ofNat 0xFEFF

/-- Model of JavaScript `String.prototype.trim`: strip leading and trailing
whitespace characters. -/
def jsTrim (s : String) : String :=
  String.mk (((s.toList.dropWhile isJsWhitespace).reverse.dropWhile isJsWhitespace).reverse)

/-- Hexadecimal digit (uppercase) for a value below 16, as used by
percent-encoding. -/
def hexDigit (n : Nat) : Char :=
  if n < 10 then Char.ofNat (48 + n) else Char.ofNat (55 + n)

/-- UTF-8 byte sequence of a Unicode code point, as a list of byte values. -/
def utf8Bytes (n : Nat) : List Nat :=
  if n < 0x80 then [n]
  else if n < 0x800 then [0xC0 + n / 64, 0x80 + n % 64]
  else if n < 0x10000 then [0xE0 + n / 4096, 0x80 + (n / 64) % 64, 0x80 + n % 64]
  else [0xF0 + n / 262144, 0x80 + (n / 4096) % 64, 0x80 + (n / 64) % 64, 0x80 + n % 64]

/-- Characters left unescaped by JavaScript `encodeURIComponent`. -/
def isUnescapedURIChar (c : Char) : Bool :=
  c.isAlphanum || c ∈ ['-', '_', '.', '!', '~', '*', Char.ofNat 39, '(', ')']

/-- Percent-encoding of one byte, e.g. 32 becomes the three characters of
percent two zero. -/
def percentEncodeByte (b : Nat) : List Char :=
  ['%', hexDigit (b / 16), hexDigit (b % 16)]

/-- Model of JavaScript `encodeURIComponent`: unreserved characters are kept,
every other character is replaced by the percent-encoding of its UTF-8
bytes. -/
def encodeURIComponent (s : String) : String :=
  String.mk (s.toList.flatMap (fun c =>
    if isUnescapedURIChar c then [c] else (utf8Bytes c.toNat).flatMap percentEncodeByte))

/- ===== Data model of the frontend ===== -/

/-- File object as seen by the upload UI: a name and a size in bytes. -/
structure JsFile where
  name : String
  size : Nat
deriving DecidableEq, Repr

/-- Dataset entry as stored by `script.js` in `availableDatasets` and
`downloadDatasets`: id, name, description (the marketplace reference) and
category. -/
structure DatasetItem where
  id : Nat
  name : String
  description : String
  category : String
deriving DecidableEq, Repr

/-- Outcome of the keyword-search handlers: either a user-visible rejection
(the `alert` message) before any network activity, or an HTTP GET request
to the given URL. -/
inductive KeywordSearchResult where
  | rejected (message : String)
  | request (url : String)
deriving DecidableEq, Repr

/-- Outcome of the file-search handler: either a user-visible rejection, or
an HTTP POST request to the given URL carrying the given files as form
data. -/
inductive FileSearchResult where
  | rejected (message : String)
  | request (url : String) (formFiles : List JsFile)
deriving DecidableEq, Repr

/- ===== File-upload UI (src/unnamed/part_001, also part_002) ===== -/

/-- Model of JavaScript `String.prototype.toLowerCase`, restricted to the
ASCII lowercasing that the file extensions exercise. -/
def jsToLowerCase (s : String) : String :=
  String.mk (s.toList.map Char.toLower)

/-- Model of JavaScript `String.prototype.endsWith`. -/
def jsEndsWith (s suffix : String) : Bool :=
  suffix.toList.isSuffixOf s.toList

/-- Embedding of `isValidFileType` from the upload UI: the lower-cased file
name must end with one of the four allowed extensions. -/
def isValidFileType (file : JsFile) : Bool :=
  let allowedTypes := [".csv", ".pdf", ".docx", ".xlsx"]
  let fileName := jsToLowerCase file.name
  allowedTypes.any (fun t => jsEndsWith fileName t)

/-- Result of `handleFileSelect`: the new `uploadedFiles` list, and the
names of the rejected files (joined into the validation `alert` when
non-empty). -/
structure FileSelectResult where
  uploadedFiles : List JsFile
  invalidNames : List String
deriving DecidableEq, Repr

/-- Embedding of `handleFileSelect`: partition the chosen files by
`isValidFileType`; invalid files are reported by name in an alert and
dropped, valid files are appended to `uploadedFiles`. -/
def handleFileSelect (uploadedFiles : List JsFile) (files : List JsFile) : FileSelectResult :=
  let p := files.partition (fun file => isValidFileType file)
  let validFiles := p.1
  let invalidFiles := p.2
  { uploadedFiles := if validFiles.length > 0 then uploadedFiles ++ validFiles else uploadedFiles
    invalidNames := invalidFiles.map (fun f => f.name) }

/-- Validation alert text of `handleFileSelect`, emitted when at least one
file was rejected; it lists every offending file name. -/
def fileSelectAlert (invalidNames : List String) : Option String :=
  if invalidNames.length > 0 then
    some ("The following files are not supported: " ++ String.intercalate ", " invalidNames
      ++ "\n\nSupported formats: CSV, PDF, Word (.docx), Excel (.xlsx)")
  else none

/-- Embedding of `removeFile`: `splice(index, 1)` on `uploadedFiles`. -/
def removeFile (uploadedFiles : List JsFile) (index : Nat) : List JsFile :=
  uploadedFiles.eraseIdx index

/-- Embedding of the `uploadedFiles` assignment in the upload UI's
`clearAll`: the list is emptied. -/
def clearAllUploadedFiles : List JsFile := []

/-- Embedding of `handleSearchWithKeyword` from src/unnamed/part_001: trim
the input; an empty result is rejected with an alert and no request,
otherwise a GET request to the search-keyword endpoint is issued. -/
def handleSearchWithKeyword (backendUrl inputValue : String) : KeywordSearchResult :=
  let searchTerm := jsTrim inputValue
  if searchTerm = "" then .rejected "Please enter a search keyword"
  else .request (backendUrl ++ "/search-keyword?keyword=" ++ encodeURIComponent searchTerm)

/-- Embedding of `handleSearchWithFiles` from src/unnamed/part_001: with no
uploaded files the search is rejected with an alert and no request,
otherwise a POST request to the search-files endpoint carries exactly the
uploaded files as form data. -/
def handleSearchWithFiles (backendUrl : String) (uploadedFiles : List JsFile) : FileSearchResult :=
  if uploadedFiles.length = 0 then
    .rejected "Please upload at least one file before searching for similar datasets."
  else .request (backendUrl ++ "/search-files") uploadedFiles

/-- Embedding of `handleSearch` from src/script.js (the keyword-only page):
same trim-and-reject logic, but the request goes to the search endpoint
(not search-keyword). -/
def scriptJsHandleSearch (backendUrl inputValue : String) : KeywordSearchResult :=
  let searchTerm := jsTrim inputValue
  if searchTerm = "" then .rejected "Please enter a search keyword"
  else .request (backendUrl ++ "/search?keyword=" ++ encodeURIComponent searchTerm)

/- ===== Download selection (src/script.js, also part_002) ===== -/

/-- Embedding of `toggleDatasetSelection`: if the id is already selected the
entry is spliced out; otherwise the dataset found in `availableDatasets` is
pushed.  When `find` yields no dataset the JavaScript pushes `undefined`,
corrupting the list and crashing the next render; that outcome is modelled
as `none`. -/
def toggleDatasetSelection (available download : List DatasetItem) (datasetId : Nat) :
    Option (List DatasetItem) :=
  match download.findIdx? (fun d => d.id = datasetId) with
  | some i => some (download.eraseIdx i)
  | none =>
    match available.find? (fun d => d.id = datasetId) with
    | some dataset => some (download ++ [dataset])
    | none => none

/-- Embedding of `addToDownloadList`: a missing dataset is ignored; an
already-selected id leaves the list unchanged; otherwise the dataset is
appended. -/
def addToDownloadList (available download : List DatasetItem) (datasetId : Nat) :
    List DatasetItem :=
  match available.find? (fun d => d.id = datasetId) with
  | none => download
  | some dataset =>
    match download.findIdx? (fun d => d.id = datasetId) with
    | some _ => download
    | none => download ++ [dataset]

/-- Embedding of `removeFromDownloadList`: keep the entries whose id
differs. -/
def removeFromDownloadList (download : List DatasetItem) (datasetId : Nat) :
    List DatasetItem :=
  download.filter (fun d => d.id ≠ datasetId)

/-- Embedding of the `downloadDatasets` assignment in `clearAll` of
src/script.js: the selection is emptied. -/
def clearAllDownloadDatasets : List DatasetItem := []

/- ===== Rate-Limited Fetcher (backend, modelled from the spec) ===== -/

/-- Modelled from the spec: the backend module `backend/modules/datasets.py`
is absent from the source tree.  `RateLimiterState` is the process-wide
state of the Rate-Limited Fetcher, per spec section 3. -/
structure RateLimiterState where
  lastCallTimestamp : Nat
  currentBackoffDelay : Nat
  consecutiveFailureCount : Nat
deriving DecidableEq, Repr

/-- Modelled from the spec: configuration of the Fetcher, per spec
section 4.1 and the README (min delay, base delay, max backoff delay,
maximum retry count, default 3). -/
structure FetcherConfig where
  minDelay : Nat
  baseDelay : Nat
  maxDelay : Nat
  maxRetries : Nat
deriving DecidableEq, Repr

/-- Modelled from the spec: the initial rate-limiter state, with the
backoff delay at the configured base delay and no recorded failures. -/
def initState (cfg : FetcherConfig) : RateLimiterState :=
  { lastCallTimestamp := 0
    currentBackoffDelay := cfg.baseDelay
    consecutiveFailureCount := 0 }

/-- Modelled from the spec: state update on a throttling response or
transient failure, per spec section 4.1: increment
`consecutiveFailureCount`, then set the backoff delay to
min(baseDelay * 2 ^ consecutiveFailureCount, maxDelay). -/
def onFailure (cfg : FetcherConfig) (s : RateLimiterState) : RateLimiterState :=
  let count := s.consecutiveFailureCount + 1
  { s with
    consecutiveFailureCount := count
    currentBackoffDelay := min (cfg.baseDelay * 2 ^ count) cfg.maxDelay }

/-- Modelled from the spec: state update on a successful call, per spec
section 4.1: reset `consecutiveFailureCount` to 0, set the backoff delay
back to the base delay, record the call timestamp. -/
def onSuccess (cfg : FetcherConfig) (now : Nat) (_s : RateLimiterState) : RateLimiterState :=
  { lastCallTimestamp := now
    currentBackoffDelay := cfg.baseDelay
    consecutiveFailureCount := 0 }

/-- Modelled from the spec: the rate-limiter state after a streak of `n`
consecutive failures starting from the initial state. -/
def failStreak (cfg : FetcherConfig) : Nat → RateLimiterState
  | 0 => initState cfg
  | n + 1 => onFailure cfg (failStreak cfg n)

/-- Modelled from the spec: the time at which the Fetcher actually issues a
call that becomes ready at time `now`, per spec section 4.1: if less than
`minDelay` has elapsed since the last call, suspend until `minDelay` has
elapsed. -/
def callTime (minDelay last now : Nat) : Nat :=
  if now < last + minDelay then last + minDelay else now

/-- Modelled from the spec: issue times of a sequence of calls through the
Fetcher.  Each call becomes ready at its arrival time and is issued at
`callTime`; the issue time becomes the recorded `lastCallTimestamp` for the
next call. -/
def issueTimes (minDelay : Nat) (last : Nat) : List Nat → List Nat
  | [] => []
  | a :: rest =>
    let t := callTime minDelay last a
    t :: issueTimes minDelay t rest

/-- Modelled from the spec: response of the external marketplace API to one
attempt — either throttling (HTTP 429 or equivalent transient failure) or
success carrying raw records, identified here by their reference strings. -/
inductive ApiResponse where
  | throttled
  | ok (records : List String)
deriving DecidableEq, Repr

/-- Modelled from the spec: observable trace of one fetch operation — how
many attempts were issued, the backoff delays slept between attempts, and
the final outcome (`none` is the terminal rate-limit error). -/
structure FetchTrace where
  attempts : Nat
  delays : List Nat
  result : Option (List String)
deriving DecidableEq, Repr

/-- Modelled from the spec: the retry loop of the Fetcher.  `resp idx` is
the marketplace's response to the `idx`-th attempt (0-based); `budget` is
the number of attempts still allowed and `count` the consecutive-failure
count so far.  Per the README, at most `maxRetries` attempts are issued in
total; on each failure the count is incremented and the Fetcher sleeps
min(baseDelay * 2 ^ count, maxDelay) before the next attempt. -/
def fetchGo (cfg : FetcherConfig) (resp : Nat → ApiResponse) :
    Nat → Nat → Nat → FetchTrace
  | 0, _, _ => { attempts := 0, delays := [], result := none }
  | budget + 1, idx, count =>
    match resp idx with
    | .ok records => { attempts := 1, delays := [], result := some records }
    | .throttled =>
      let d := min (cfg.baseDelay * 2 ^ (count + 1)) cfg.maxDelay
      let t := fetchGo cfg resp budget (idx + 1) (count + 1)
      { attempts := t.attempts + 1, delays := d :: t.delays, result := t.result }

/-- Modelled from the spec: a full fetch operation, starting with no prior
consecutive failures and a budget of `maxRetries` attempts. -/
def fetchWithRetry (cfg : FetcherConfig) (resp : Nat → ApiResponse) : FetchTrace :=
  fetchGo cfg resp cfg.maxRetries 0 0

/- ===== Result Normalizer (backend, modelled from the spec) ===== -/

/-- Modelled from the spec: a marketplace record, per spec section 3 —
reference (unique marketplace id), title, license, last-updated timestamp,
tags, and a file listing of name/size pairs. -/
structure MarketplaceRecord where
  reference : String
  title : String
  license : String
  lastUpdated : Nat
  tags : List String
  files : List (String × Nat)
deriving DecidableEq, Repr

namespace Normalizer

/-- Modelled from the spec: worker of `normalize`, carrying the set of
references already seen; a record whose reference was seen is dropped,
otherwise it is kept and its reference recorded. -/
def normalizeAux (seen : List String) : List MarketplaceRecord → List MarketplaceRecord
  | [] => []
  | r :: rest =>
    if r.reference ∈ seen then normalizeAux seen rest
    else r :: normalizeAux (r.reference :: seen) rest

/-- Modelled from the spec: `normalize(rawRecords)` of the Result
Normalizer, spec section 4.3 — de-duplicate by `reference`, keeping the
first occurrence and preserving first-seen order. -/
def normalize (records : List MarketplaceRecord) : List MarketplaceRecord :=
  normalizeAux [] records

end Normalizer

/-- Marketplace record with only its reference set, used to build concrete
scenario inputs. -/
def mkRecord (ref : String) : MarketplaceRecord :=
  { reference := ref, title := "", license := "", lastUpdated := 0, tags := [], files := [] }

/-- First result page of the titanic scenario: 50 records with references
d0 to d49. -/
def scenarioPage1 : List MarketplaceRecord :=
  (List.range 50).map (fun i => mkRecord ("d" ++ toString i))

/-- Second result page of the titanic scenario: 40 records with references
d40 to d79, so 10 of them overlap with the first page. -/
def scenarioPage2 : List MarketplaceRecord :=
  (List.range 40).map (fun i => mkRecord ("d" ++ toString (i + 40)))

/- ===== Helper lemmas ===== -/

theorem fetchGo_all_throttled (cfg : FetcherConfig) (resp : Nat → ApiResponse) :
    ∀ (budget idx count : Nat), (∀ k, k < budget → resp (idx + k) = .throttled) →
      (fetchGo cfg resp budget idx count).result = none ∧
      (fetchGo cfg resp budget idx count).attempts = budget := by
  intro budget
  induction budget with
  | zero => intro idx count _; exact ⟨rfl, rfl⟩
  | succ b ih =>
    intro idx count h
    have h0 : resp idx = .throttled := by simpa using h 0 (Nat.succ_pos b)
    have ih2 := ih (idx + 1) (count + 1) (fun k hk => by
      have e : idx + 1 + k = idx + (k + 1) := by omega
      rw [e]; exact h (k + 1) (by omega))
    simp [fetchGo, h0, ih2.1, ih2.2]

theorem fetchGo_delays (cfg : FetcherConfig) (resp : Nat → ApiResponse) :
    ∀ (n budget idx count : Nat), n + 1 ≤ budget →
      (∀ k, k < n + 1 → resp (idx + k) = .throttled) →
      (fetchGo cfg resp budget idx count).delays[n]? =
        some (min (cfg.baseDelay * 2 ^ (count + n + 1)) cfg.maxDelay) := by
  intro n
  induction n with
  | zero =>
    intro budget idx count hb hk
    obtain ⟨b, rfl⟩ : ∃ b, budget = b + 1 := ⟨budget - 1, by omega⟩
    have h0 : resp idx = .throttled := by simpa using hk 0 Nat.one_pos
    simp [fetchGo, h0]
  | succ n ih =>
    intro budget idx count hb hk
    obtain ⟨b, rfl⟩ : ∃ b, budget = b + 1 := ⟨budget - 1, by omega⟩
    have h0 : resp idx = .throttled := by simpa using hk 0 (by omega)
    have ih2 := ih b (idx + 1) (count + 1) (by omega) (fun k hkk => by
      have e : idx + 1 + k = idx + (k + 1) := by omega
      rw [e]; exact hk (k + 1) (by omega))
    have e2 : count + 1 + n + 1 = count + (n + 1) + 1 := by omega
    rw [e2] at ih2
    simp [fetchGo, h0, ih2]

theorem failStreak_count (cfg : FetcherConfig) : ∀ n, (failStreak cfg n).consecutiveFailureCount = n := by
  intro n
  induction n with
  | zero => rfl
  | succ m ih => simp [failStreak, onFailure, ih]

theorem failStreak_delay (cfg : FetcherConfig) (n : Nat) :
    (failStreak cfg (n + 1)).currentBackoffDelay =
      min (cfg.baseDelay * 2 ^ (n + 1)) cfg.maxDelay := by
  simp [failStreak, onFailure, failStreak_count]

theorem issueTimes_spec (minDelay : Nat) :
    ∀ (arrivals : List Nat) (last : Nat),
      (issueTimes minDelay last arrivals).Pairwise (fun t t2 => t + minDelay ≤ t2) ∧
      ∀ t ∈ issueTimes minDelay last arrivals, last + minDelay ≤ t := by
  intro arrivals
  induction arrivals with
  | nil => intro last; simp [issueTimes]
  | cons a rest ih =>
    intro last
    have hcall : last + minDelay ≤ callTime minDelay last a := by
      unfold callTime; split <;> omega
    obtain ⟨ihp, ihm⟩ := ih (callTime minDelay last a)
    refine ⟨?_, ?_⟩
    · simp only [issueTimes]
      exact List.pairwise_cons.mpr ⟨fun t ht => ihm t ht, ihp⟩
    · intro t ht
      simp only [issueTimes, List.mem_cons] at ht
      rcases ht with rfl | ht
      · exact hcall
      · have := ihm t ht; omega

namespace Normalizer

theorem mem_normalizeAux_not_seen :
    ∀ (l : List MarketplaceRecord) (seen : List String) (r : MarketplaceRecord),
      r ∈ normalizeAux seen l → r.reference ∉ seen := by
  intro l
  induction l with
  | nil => intro seen r h; simp [normalizeAux] at h
  | cons a rest ih =>
    intro seen r h
    by_cases ha : a.reference ∈ seen
    · rw [normalizeAux, if_pos ha] at h
      exact ih seen r h
    · rw [normalizeAux, if_neg ha] at h
      rcases List.mem_cons.mp h with rfl | h2
      · exact ha
      · have h3 := ih _ r h2
        intro hr
        exact h3 (List.mem_cons_of_mem _ hr)

theorem normalizeAux_sublist :
    ∀ (l : List MarketplaceRecord) (seen : List String), List.Sublist (normalizeAux seen l) l := by
  intro l
  induction l with
  | nil => intro seen; simp [normalizeAux]
  | cons a rest ih =>
    intro seen
    by_cases ha : a.reference ∈ seen
    · rw [normalizeAux, if_pos ha]
      exact (ih seen).cons a
    · rw [normalizeAux, if_neg ha]
      exact (ih (a.reference :: seen)).cons₂ a

theorem normalizeAux_pairwise :
    ∀ (l : List MarketplaceRecord) (seen : List String),
      (normalizeAux seen l).Pairwise (fun a b => a.reference ≠ b.reference) := by
  intro l
  induction l with
  | nil => intro seen; simp [normalizeAux]
  | cons a rest ih =>
    intro seen
    by_cases ha : a.reference ∈ seen
    · rw [normalizeAux, if_pos ha]
      exact ih seen
    · rw [normalizeAux, if_neg ha]
      refine List.pairwise_cons.mpr ⟨?_, ih (a.reference :: seen)⟩
      intro b hb
      have h2 := mem_normalizeAux_not_seen rest (a.reference :: seen) b hb
      intro he
      exact h2 (by rw [← he]; exact List.mem_cons_self _ _)

theorem normalizeAux_eq_self :
    ∀ (l : List MarketplaceRecord) (seen : List String),
      (∀ r ∈ l, r.reference ∉ seen) →
      l.Pairwise (fun a b => a.reference ≠ b.reference) →
      normalizeAux seen l = l := by
  intro l
  induction l with
  | nil => intro seen _ _; rfl
  | cons a rest ih =>
    intro seen hseen hpw
    have ha : a.reference ∉ seen := hseen a (List.mem_cons_self _ _)
    rw [normalizeAux, if_neg ha]
    obtain ⟨hhead, htail⟩ := List.pairwise_cons.mp hpw
    congr 1
    refine ih (a.reference :: seen) ?_ htail
    intro r hr hmem
    rcases List.mem_cons.mp hmem with he | hm
    · exact hhead r hr he.symm
    · exact hseen r (List.mem_cons_of_mem _ hr) hm

theorem normalizeAux_complete :
    ∀ (l : List MarketplaceRecord) (seen : List String) (r : MarketplaceRecord),
      r ∈ l → r.reference ∈ seen ∨
        ∃ r2 ∈ normalizeAux seen l, r2.reference = r.reference := by
  intro l
  induction l with
  | nil => intro seen r h; simp at h
  | cons a rest ih =>
    intro seen r hr
    by_cases ha : a.reference ∈ seen
    · rw [normalizeAux, if_pos ha]
      rcases List.mem_cons.mp hr with he | h2
      · exact Or.inl (he ▸ ha)
      · exact ih seen r h2
    · rw [normalizeAux, if_neg ha]
      rcases List.mem_cons.mp hr with he | h2
      · exact Or.inr ⟨a, List.mem_cons_self _ _, by rw [he]⟩
      · rcases ih (a.reference :: seen) r h2 with hs | ⟨r2, hr2, he⟩
        · rcases List.mem_cons.mp hs with he | hm
          · exact Or.inr ⟨a, List.mem_cons_self _ _, he.symm⟩
          · exact Or.inl hm
        · exact Or.inr ⟨r2, List.mem_cons_of_mem _ hr2, he⟩

theorem normalizeAux_first_occurrence :
    ∀ (l : List MarketplaceRecord) (seen : List String) (r : MarketplaceRecord),
      r ∈ normalizeAux seen l →
      l.find? (fun x => x.reference = r.reference) = some r := by
  intro l
  induction l with
  | nil => intro seen r h; simp [normalizeAux] at h
  | cons a rest ih =>
    intro seen r h
    by_cases ha : a.reference ∈ seen
    · rw [normalizeAux, if_pos ha] at h
      have hfind := ih seen r h
      have hns := mem_normalizeAux_not_seen rest seen r h
      have hne : a.reference ≠ r.reference := fun he => hns (he ▸ ha)
      rw [List.find?_cons_of_neg _ (by simp [hne])]
      exact hfind
    · rw [normalizeAux, if_neg ha] at h
      rcases List.mem_cons.mp h with rfl | h2
      · rw [List.find?_cons_of_pos _ (by simp)]
      · have hfind := ih (a.reference :: seen) r h2
        have hns := mem_normalizeAux_not_seen rest (a.reference :: seen) r h2
        have hne : a.reference ≠ r.reference := by
          intro he
          exact hns (by rw [← he]; exact List.mem_cons_self _ _)
        rw [List.find?_cons_of_neg _ (by simp [hne])]
        exact hfind

end Normalizer

/- ===== Claim theorems ===== -/

/-- C1: for every number N of consecutive throttling responses with
N < maxRetries, the delay the Fetcher waits before the (N+1)-th attempt
equals min(baseDelay * 2 ^ N, maxDelay). -/
theorem fetch_backoff_delay (cfg : FetcherConfig) (resp : Nat → ApiResponse) (N : Nat)
    (h1 : 1 ≤ N) (h2 : N < cfg.maxRetries) (h3 : ∀ k, k < N → resp k = .throttled) :
    (fetchWithRetry cfg resp).delays[N - 1]? =
      some (min (cfg.baseDelay * 2 ^ N) cfg.maxDelay) := by
  obtain ⟨n, rfl⟩ : ∃ n, N = n + 1 := ⟨N - 1, by omega⟩
  have h := fetchGo_delays cfg resp n cfg.maxRetries 0 0 (by omega)
    (fun k hk => by simpa using h3 k hk)
  simpa [fetchWithRetry] using h

/-- Witness for C1 at baseDelay 2, maxDelay 60, maxRetries 3 and N = 2:
the delay before the third attempt is min(2 * 2 ^ 2, 60) = 8. -/
theorem fetch_backoff_delay_witness :
    (fetchWithRetry ⟨2, 2, 60, 3⟩ (fun _ => .throttled)).delays[1]? = some 8 := by
  have h := fetch_backoff_delay ⟨2, 2, 60, 3⟩ (fun _ => .throttled) 2
    (by decide) (by decide) (fun k _ => rfl)
  simpa using h

/-- C2: when every attempt up to the retry budget receives a throttling
response, the fetch operation surfaces the terminal rate-limit error and
exactly maxRetries attempts were issued — responses beyond that are never
consumed. -/
theorem fetch_terminal_after_max_retries (cfg : FetcherConfig) (resp : Nat → ApiResponse)
    (h : ∀ k, k < cfg.maxRetries → resp k = .throttled) :
    (fetchWithRetry cfg resp).result = none ∧
    (fetchWithRetry cfg resp).attempts = cfg.maxRetries :=
  fetchGo_all_throttled cfg resp cfg.maxRetries 0 0 (fun k hk => by simpa using h k hk)

/-- Witness for C2: with maxRetries = 3 and consecutive throttling
responses, the operation fails terminally after 3 attempts and no fourth
attempt is issued. -/
theorem fetch_terminal_after_max_retries_witness :
    (fetchWithRetry ⟨2, 2, 60, 3⟩ (fun _ => .throttled)).result = none ∧
    (fetchWithRetry ⟨2, 2, 60, 3⟩ (fun _ => .throttled)).attempts = 3 :=
  fetch_terminal_after_max_retries ⟨2, 2, 60, 3⟩ (fun _ => .throttled) (fun _ _ => rfl)

/-- C3: provided the configured base delay does not exceed the maximum
delay, `currentBackoffDelay` is monotonically non-decreasing along a streak
of consecutive failures, the failure count equals the streak length, and a
success resets the state: failure count 0, backoff delay back to baseDelay,
and the call timestamp recorded. -/
theorem backoff_monotone_and_reset (cfg : FetcherConfig)
    (h : cfg.baseDelay ≤ cfg.maxDelay) :
    (∀ n, (failStreak cfg n).currentBackoffDelay ≤
      (failStreak cfg (n + 1)).currentBackoffDelay) ∧
    (∀ n, (failStreak cfg n).consecutiveFailureCount = n) ∧
    (∀ n now, onSuccess cfg now (failStreak cfg n) =
      { lastCallTimestamp := now, currentBackoffDelay := cfg.baseDelay,
        consecutiveFailureCount := 0 }) := by
  refine ⟨?_, failStreak_count cfg, fun n now => rfl⟩
  intro n
  cases n with
  | zero =>
    rw [failStreak_delay]
    show (initState cfg).currentBackoffDelay ≤ _
    have h2 : cfg.baseDelay ≤ cfg.baseDelay * 2 ^ (0 + 1) := by
      simp [pow_succ]; omega
    exact le_min h2 h
  | succ m =>
    rw [failStreak_delay, failStreak_delay]
    exact min_le_min
      (Nat.mul_le_mul_left _ (Nat.pow_le_pow_right (by omega) (by omega))) le_rfl

/-- Witness for C3 at baseDelay 2, maxDelay 60: the delay after one failure
is at least the delay after none, the count after two failures is 2, and a
success at time 7 resets the state. -/
theorem backoff_monotone_and_reset_witness :
    ((failStreak ⟨2, 2, 60, 3⟩ 0).currentBackoffDelay ≤
      (failStreak ⟨2, 2, 60, 3⟩ 1).currentBackoffDelay) ∧
    (failStreak ⟨2, 2, 60, 3⟩ 2).consecutiveFailureCount = 2 ∧
    onSuccess ⟨2, 2, 60, 3⟩ 7 (failStreak ⟨2, 2, 60, 3⟩ 2) =
      { lastCallTimestamp := 7, currentBackoffDelay := 2, consecutiveFailureCount := 0 } :=
  have h := backoff_monotone_and_reset ⟨2, 2, 60, 3⟩ (by decide)
  ⟨h.1 0, h.2.1 2, h.2.2 2 7⟩

/-- C4: across any sequence of calls through the Fetcher, any two issued
calls are at least minDelay apart: before issuing, the Fetcher suspends
until minDelay has elapsed since the recorded last call timestamp. -/
theorem fetcher_min_spacing (minDelay last : Nat) (arrivals : List Nat) :
    (issueTimes minDelay last arrivals).Pairwise (fun t t2 => t + minDelay ≤ t2) :=
  (issueTimes_spec minDelay arrivals last).1

/-- C5: `normalize` de-duplicates by reference keeping the first occurrence
in first-seen order (its output is a subsequence of its input with pairwise
distinct references, covering every input reference, and each kept record
is the first of its reference), it is idempotent, and the titanic scenario
of 50 plus 40 records with 10 overlapping references yields 80 records. -/
theorem normalize_dedup_spec (l : List MarketplaceRecord) :
    Normalizer.normalize (Normalizer.normalize l) = Normalizer.normalize l ∧
    List.Sublist (Normalizer.normalize l) l ∧
    (Normalizer.normalize l).Pairwise (fun a b => a.reference ≠ b.reference) ∧
    (∀ r ∈ l, ∃ r2 ∈ Normalizer.normalize l, r2.reference = r.reference) ∧
    (∀ r ∈ Normalizer.normalize l, l.find? (fun x => x.reference = r.reference) = some r) ∧
    (Normalizer.normalize (scenarioPage1 ++ scenarioPage2)).length = 80 := by
  refine ⟨?_, Normalizer.normalizeAux_sublist l [], Normalizer.normalizeAux_pairwise l [],
    ?_, fun r hr => Normalizer.normalizeAux_first_occurrence l [] r hr, by decide⟩
  · exact Normalizer.normalizeAux_eq_self _ [] (fun r _ => by simp)
      (Normalizer.normalizeAux_pairwise l [])
  · intro r hr
    rcases Normalizer.normalizeAux_complete l [] r hr with hs | h2
    · simp at hs
    · exact h2

/-- Witness for C5: normalizing a list with a repeated reference twice
gives the same result as normalizing it once, and the titanic scenario
yields 80 records. -/
theorem normalize_dedup_spec_witness :
    Normalizer.normalize (Normalizer.normalize [mkRecord "a", mkRecord "a"]) =
      Normalizer.normalize [mkRecord "a", mkRecord "a"] ∧
    (Normalizer.normalize (scenarioPage1 ++ scenarioPage2)).length = 80 :=
  have h := normalize_dedup_spec [mkRecord "a", mkRecord "a"]
  ⟨h.1, h.2.2.2.2.2⟩

/-- C6: an empty or whitespace-only search term in keyword mode, and an
empty upload list in file mode, are rejected with a user-visible alert
before any backend request is issued. -/
theorem search_rejected_on_empty_input (backendUrl inputValue : String)
    (h : inputValue.toList.all isJsWhitespace = true) :
    handleSearchWithKeyword backendUrl inputValue =
      .rejected "Please enter a search keyword" ∧
    handleSearchWithFiles backendUrl [] =
      .rejected "Please upload at least one file before searching for similar datasets." := by
  have hall : ∀ c ∈ inputValue.toList, isJsWhitespace c := List.all_eq_true.mp h
  have h1 : inputValue.toList.dropWhile isJsWhitespace = [] :=
    List.dropWhile_eq_nil_iff.mpr hall
  have h2 : jsTrim inputValue = "" := by
    unfold jsTrim
    rw [h1]
    rfl
  exact ⟨by unfold handleSearchWithKeyword; rw [h2]; rfl, rfl⟩

/-- Witness for C6: the whitespace-only input of two spaces is rejected,
and so is a file search with no uploaded files. -/
theorem search_rejected_on_empty_input_witness :
    handleSearchWithKeyword "http://localhost:8000" "  " =
      .rejected "Please enter a search keyword" ∧
    handleSearchWithFiles "http://localhost:8000" [] =
      .rejected "Please upload at least one file before searching for similar datasets." :=
  search_rejected_on_empty_input "http://localhost:8000" "  " (by decide)

/-- C7: a file whose name does not carry a supported extension is listed by
name among the invalid files of the validation alert and never enters
`uploadedFiles`, so no external call ever carries it. -/
theorem invalid_file_rejected (uploaded files : List JsFile) (f : JsFile)
    (hmem : f ∈ files) (hinv : isValidFileType f = false)
    (hval : ∀ g ∈ uploaded, isValidFileType g = true) :
    f.name ∈ (handleFileSelect uploaded files).invalidNames ∧
    f ∉ (handleFileSelect uploaded files).uploadedFiles := by
  unfold handleFileSelect
  simp only [List.partition_eq_filter_filter]
  constructor
  · refine List.mem_map.mpr ⟨f, ?_, rfl⟩
    refine List.mem_filter.mpr ⟨hmem, ?_⟩
    simp [hinv]
  · intro hf
    by_cases hc : (files.filter (fun file => isValidFileType file)).length > 0
    · rw [if_pos hc] at hf
      rcases List.mem_append.mp hf with hu | hv
      · rw [hval f hu] at hinv
        exact Bool.noConfusion hinv
      · have := (List.mem_filter.mp hv).2
        rw [this] at hinv
        exact Bool.noConfusion hinv
    · rw [if_neg hc] at hf
      rw [hval f hf] at hinv
      exact Bool.noConfusion hinv

/-- Witness for C7: uploading the single file data.txt rejects it, listing
data.txt as unsupported, and leaves `uploadedFiles` without it. -/
theorem invalid_file_rejected_witness :
    "data.txt" ∈ (handleFileSelect [] [⟨"data.txt", 5⟩]).invalidNames ∧
    (⟨"data.txt", 5⟩ : JsFile) ∉ (handleFileSelect [] [⟨"data.txt", 5⟩]).uploadedFiles :=
  invalid_file_rejected [] [⟨"data.txt", 5⟩] ⟨"data.txt", 5⟩ (by decide) (by decide)
    (fun g hg => absurd hg (List.not_mem_nil g))

/-- C8: code bug in src/script.js.  The documented keyword endpoint is
search-keyword, which the upload UI of src/unnamed/part_001 uses, but the
`handleSearch` of src/script.js issues its GET request to the search
endpoint instead, so the two clients diverge on the same keyword. -/
theorem scriptJs_search_endpoint_divergence :
    scriptJsHandleSearch "http://localhost:8000" "titanic" =
      .request "http://localhost:8000/search?keyword=titanic" ∧
    handleSearchWithKeyword "http://localhost:8000" "titanic" =
      .request "http://localhost:8000/search-keyword?keyword=titanic" ∧
    scriptJsHandleSearch "http://localhost:8000" "titanic" ≠
      .request "http://localhost:8000/search-keyword?keyword=titanic" := by
  refine ⟨by decide, by decide, by decide⟩

/-- C9: every operation that mutates `uploadedFiles` keeps the invariant
that every stored file has a supported extension: `handleFileSelect` only
appends files passing `isValidFileType`, `removeFile` only removes, and
`clearAll` empties the list. -/
theorem uploadedFiles_valid_invariant (uploaded files : List JsFile) (i : Nat)
    (h : ∀ f ∈ uploaded, isValidFileType f = true) :
    (∀ f ∈ (handleFileSelect uploaded files).uploadedFiles, isValidFileType f = true) ∧
    (∀ f ∈ removeFile uploaded i, isValidFileType f = true) ∧
    (∀ f ∈ clearAllUploadedFiles, isValidFileType f = true) := by
  refine ⟨?_, ?_, ?_⟩
  · intro f hf
    unfold handleFileSelect at hf
    simp only [List.partition_eq_filter_filter] at hf
    by_cases hc : (files.filter (fun file => isValidFileType file)).length > 0
    · rw [if_pos hc] at hf
      rcases List.mem_append.mp hf with hu | hv
      · exact h f hu
      · exact (List.mem_filter.mp hv).2
    · rw [if_neg hc] at hf
      exact h f hf
  · intro f hf
    exact h f ((List.eraseIdx_sublist uploaded i).subset hf)
  · intro f hf
    exact absurd hf (List.not_mem_nil f)

/-- Witness for C9: starting from the valid upload list holding a.csv and
adding the invalid b.txt, the file a.csv kept in `uploadedFiles` is
valid. -/
theorem uploadedFiles_valid_invariant_witness :
    isValidFileType ⟨"a.csv", 1⟩ = true :=
  (uploadedFiles_valid_invariant [⟨"a.csv", 1⟩] [⟨"b.txt", 2⟩] 0
      (by intro f hf; rcases List.mem_singleton.mp hf with rfl; decide)).1
    ⟨"a.csv", 1⟩ (by decide)

/-- C10: every operation on the download selection keeps the invariant that
no two entries share an id: toggling an already-selected id removes it,
`addToDownloadList` leaves an already-selected id untouched and otherwise
appends the dataset carrying exactly that id, removal filters by id, and
`clearAll` empties the list. -/
theorem download_unique_ids_invariant (available download : List DatasetItem)
    (datasetId : Nat) (h : download.Pairwise (fun a b => a.id ≠ b.id)) :
    (∀ l2, toggleDatasetSelection available download datasetId = some l2 →
      l2.Pairwise (fun a b => a.id ≠ b.id)) ∧
    (addToDownloadList available download datasetId).Pairwise (fun a b => a.id ≠ b.id) ∧
    ((download.findIdx? (fun d => d.id = datasetId)).isSome →
      addToDownloadList available download datasetId = download) ∧
    (removeFromDownloadList download datasetId).Pairwise (fun a b => a.id ≠ b.id) ∧
    clearAllDownloadDatasets.Pairwise (fun a b => a.id ≠ b.id) := by
  have happend : ∀ d, available.find? (fun x => x.id = datasetId) = some d →
      download.findIdx? (fun x => x.id = datasetId) = none →
      (download ++ [d]).Pairwise (fun a b => a.id ≠ b.id) := by
    intro d hfind hnone
    have hd : d.id = datasetId := by simpa using List.find?_some hfind
    have hnot : ∀ x ∈ download, ¬(x.id = datasetId) := by
      intro x hx
      have h2 := List.findIdx?_eq_none_iff.mp hnone x hx
      simpa using h2
    refine List.pairwise_append.mpr ⟨h, List.pairwise_singleton _ _, ?_⟩
    intro a ha b hb
    rcases List.mem_singleton.mp hb with rfl
    intro he
    exact hnot a ha (by rw [he, hd])
  refine ⟨?_, ?_, ?_, ?_, List.Pairwise.nil⟩
  · intro l2 hl2
    unfold toggleDatasetSelection at hl2
    cases hidx : download.findIdx? (fun d => d.id = datasetId) with
    | some i =>
      rw [hidx] at hl2
      simp only [Option.some.injEq] at hl2
      exact hl2 ▸ (List.Pairwise.sublist (List.eraseIdx_sublist download i) h)
    | none =>
      rw [hidx] at hl2
      cases hfind : available.find? (fun d => d.id = datasetId) with
      | some d =>
        rw [hfind] at hl2
        simp only [Option.some.injEq] at hl2
        exact hl2 ▸ happend d hfind hidx
      | none =>
        rw [hfind] at hl2
        exact absurd hl2 (Option.noConfusion)
  · unfold addToDownloadList
    cases hfind : available.find? (fun d => d.id = datasetId) with
    | none => exact h
    | some d =>
      cases hidx : download.findIdx? (fun x => x.id = datasetId) with
      | some i => exact h
      | none => exact happend d hfind hidx
  · intro hsome
    unfold addToDownloadList
    cases hfind : available.find? (fun d => d.id = datasetId) with
    | none => rfl
    | some d =>
      cases hidx : download.findIdx? (fun x => x.id = datasetId) with
      | some i => rfl
      | none =>
        rw [hidx] at hsome
        exact absurd hsome (by simp)
  · exact List.Pairwise.sublist (List.filter_sublist download) h

/-- Witness for C10: with dataset id 1 already selected, adding id 1 again
leaves the download selection unchanged. -/
theorem download_unique_ids_invariant_witness :
    addToDownloadList [⟨1, "a", "r", "c"⟩] [⟨1, "a", "r", "c"⟩] 1 =
      [⟨1, "a", "r", "c"⟩] :=
  (download_unique_ids_invariant [⟨1, "a", "r", "c"⟩] [⟨1, "a", "r", "c"⟩] 1
      (List.pairwise_singleton _ _)).2.2.1 (by decide)
